import Mathlib

/-!
Shallow embedding of the drum-machine sequencer (`main.go`): the `Parse`,
`Render` and `Play` operations of the `drumMachine` type, together with the
helper functions `contains` and `getBooleanPlay`.  Strings are handled through
their underlying character lists; Go run-time faults (out-of-range slice
indexing) are modelled by `Option`, with `none` standing for a panic.
-/

namespace DrumMachine

/-- The character class trimmed by Go's `strings.TrimSpace`
(`unicode.IsSpace` on the Latin-1 range). -/
def isGoSpace (c : Char) : Bool :=
  c = ' ' || c = '\t' || c = '\n' || c = '\x0b' || c = '\x0c' || c = '\r' ||
  c = '\u0085' || c = '\u00A0'

/-- Go `strings.TrimSpace`: drop leading and trailing space characters. -/
def trimSpace (l : List Char) : List Char :=
  ((l.dropWhile isGoSpace).reverse.dropWhile isGoSpace).reverse

/-- Go `strings.Cut(s, "|")`: `some (before, after)` when the separator
occurs (split at its first occurrence), `none` when it does not. -/
def cutBar : List Char → Option (List Char × List Char)
  | [] => none
  | c :: cs =>
    if c = '|' then some ([], cs)
    else (cutBar cs).map (fun p => (c :: p.1, p.2))

/-- `bufio.ScanLines` drops one trailing carriage return from a line. -/
def dropCR (l : List Char) : List Char :=
  match l.getLast? with
  | some '\r' => l.dropLast
  | _ => l

/-- Worker for `splitLines`: `acc` holds the current line reversed. -/
def splitLinesGo : List Char → List Char → List (List Char)
  | [], acc => [dropCR acc.reverse]
  | '\n' :: rest, acc =>
    dropCR acc.reverse :: (if rest.isEmpty then [] else splitLinesGo rest [])
  | c :: rest, acc => splitLinesGo rest (c :: acc)

/-- The lines produced by a `bufio.Scanner` with the default `ScanLines`
split function: split on newline, drop a trailing carriage return on each
line, no final empty line for newline-terminated input, and no line at all
for empty input. -/
def splitLines : List Char → List (List Char)
  | [] => []
  | c :: cs => splitLinesGo (c :: cs) []

/-- The `Pattern` struct of `main.go`. -/
structure Pattern where
  instrumentNames : List String
  track : List (List Bool)
  deriving DecidableEq, Repr

/-- `contains` from `main.go`: linear scan for a string in a slice. -/
def contains : List String → String → Bool
  | [], _ => false
  | a :: rest, e => if a = e then true else contains rest e

/-- `getBooleanPlay` from `main.go`: every beat symbol other than `-`
counts as a hit. -/
def getBooleanPlay (beat : String) : Bool :=
  if beat ≠ "-" then true else false

/-- The two error values `Parse` can return (`errors.New("incorrect
format")` and `errors.New("duplicated instrument name")`). -/
inductive ParseError where
  | incorrectFormat
  | duplicatedInstrumentName
  deriving DecidableEq, Repr

/-- The scanner loop of `Parse`, accumulating `instrumentNames` and
`track`.  On error Go returns the zero value `Pattern{}` together with a
non-nil error, modelled by the pair `(⟨[], []⟩, some e)`. -/
def parseLines : List (List Char) → List String → List (List Bool) →
    Pattern × Option ParseError
  | [], names, track => (⟨names, track⟩, none)
  | line :: rest, names, track =>
    match cutBar line with
    | none => (⟨[], []⟩, some .incorrectFormat)
    | some (before, after) =>
      if contains names ⟨trimSpace before⟩ then
        (⟨[], []⟩, some .duplicatedInstrumentName)
      else
        parseLines rest (names ++ [(⟨trimSpace before⟩ : String)])
          (track ++ [(after.filter (fun c => c ≠ '|')).map
            (fun c => getBooleanPlay ⟨[c]⟩)])

/-- `Parse` from `main.go`. -/
def parseGo (pattern : String) : Pattern × Option ParseError :=
  parseLines (splitLines pattern.data) [] []

/-- Go `strings.Join(l, ",")`. -/
def joinComma : List String → String
  | [] => ""
  | [t] => t
  | t :: ts => t ++ "," ++ joinComma ts

/-- The inner row loop of `Render` at column `i`: collect the names of the
instruments active at step `i`, in row order.  `names` is kept in lockstep
with the remaining rows, so its head is `pattern.instrumentNames[j]`.
`none` models the out-of-range panics `pattern.track[j][i]` and
`pattern.instrumentNames[j]`. -/
def columnPlayGo : List (List Bool) → List String → Nat → Option (List String)
  | [], _, _ => some []
  | row :: rows, names, i =>
    match row[i]? with
    | none => none
    | some b =>
      if b then
        match names.head? with
        | none => none
        | some name => (columnPlayGo rows names.tail i).map (fun r => name :: r)
      else columnPlayGo rows names.tail i

/-- One step token of `Render`: the comma-join of the active instruments
when the collected slice is non-empty, the placeholder otherwise. -/
def stepToken (columnPlay : List String) : String :=
  if columnPlay.length > 0 then joinComma columnPlay else "-"

/-- The outer column loop of `Render`, producing the step tokens for
columns `i, i+1, …, i+fuel-1`. -/
def renderColumns (track : List (List Bool)) (names : List String) :
    Nat → Nat → Option (List String)
  | _, 0 => some []
  | i, fuel + 1 =>
    match columnPlayGo track names i with
    | none => none
    | some col => (renderColumns track names (i + 1) fuel).map
        (fun rest => stepToken col :: rest)

/-- `Render` from `main.go`.  The loop bound is `len(pattern.track[0])`, an
out-of-range access when the track has no rows (`none`).  On success Go
returns `(play, nil)`; the nil error has no information, so the result is
`some play`. -/
def renderGo (p : Pattern) : Option String :=
  match p.track.head? with
  | none => none
  | some row0 =>
    (renderColumns p.track p.instrumentNames 0 row0.length).map
      (fun tokens =>
        let play := tokens.foldl (fun acc t => acc ++ t ++ "|") ""
        if play.length > 0 then "|" ++ play else play)

/-- Go `strings.Trim(s, "|")`: drop leading and trailing `|` characters. -/
def trimBar (l : List Char) : List Char :=
  ((l.dropWhile (fun c => c = '|')).reverse.dropWhile (fun c => c = '|')).reverse

/-- Go `strings.Split(s, "|")`: `Split("", "|") = [""]`. -/
def splitOnBar : List Char → List (List Char)
  | [] => [[]]
  | c :: rest =>
    if c = '|' then [] :: splitOnBar rest
    else
      match splitOnBar rest with
      | [] => [[c]]
      | g :: gs => (c :: g) :: gs

/-- Modelled from the spec: the spec names the error values
`InvalidTempoError` and `EmptyRenderError` for `Play`; the source's `Play`
has no error values at all and always returns a nil error. -/
inductive PlayError where
  | invalidTempo
  | emptyRender
  deriving DecidableEq, Repr

/-- `Play` from `main.go`, with the stored render `d.render` passed
explicitly.  The result is the returned error (always nil: the source ends
in `return nil` and has no other return) paired with the chunks printed to
standard output, in order; the sleeps between chunks are real-time behavior
and are not part of the value.  `bpm` only feeds the sleep duration. -/
def playGo (renderField : String) (bpm : Int) : Option PlayError × List String :=
  let render := trimBar renderField.data
  let beats := splitOnBar render
  let outputs : List String :=
    match beats with
    | [] => []
    | b :: bs => ("|" ++ (⟨b⟩ : String) ++ "|") :: bs.map (fun x => (⟨x⟩ : String) ++ "|")
  (none, outputs)

/-- Spec-side description of one rendered column: the names of the
instruments active at step `i`, collected over `instrumentNames` (paired
with their rows) in first-appearance order. -/
def activeCol (names : List String) (track : List (List Bool)) (i : Nat) :
    List String :=
  (names.zip track).filterMap
    (fun nr => if (nr.2[i]?).getD false then some nr.1 else none)

/-- Concatenation of a list of strings (used to state the shape of the
rendered output). -/
def strConcat : List String → String
  | [] => ""
  | t :: ts => t ++ strConcat ts

/-- The instrument name `Parse` extracts from a line (meaningful when the
line contains a separator). -/
def lineName (l : List Char) : String :=
  match cutBar l with
  | some (before, _) => ⟨trimSpace before⟩
  | none => ""

/-- The boolean row `Parse` builds from a line (meaningful when the line
contains a separator). -/
def lineRow (l : List Char) : List Bool :=
  match cutBar l with
  | some (_, after) =>
    (after.filter (fun c => c ≠ '|')).map (fun c => getBooleanPlay ⟨[c]⟩)
  | none => []

/-!
Store-level model of `Render` and `Play`, for the frame property: the
mutable variables in scope are the two slices backing the `Pattern`
argument, the locals `columnPlay` and `play`, and the field `d.render`.
Every Go assignment is a field update on this record, so which variables a
statement writes is explicit.
-/

/-- The mutable store during `Render`/`Play`. -/
structure RVars where
  instrumentNames : List String
  track : List (List Bool)
  columnPlay : List String
  play : String
  renderField : String
  deriving DecidableEq, Repr

/-- The body of the inner row loop of `Render` at column `i`, row `j`:
read `pattern.track[j][i]` and, when active, append
`pattern.instrumentNames[j]` to `columnPlay`.  `none` models an
out-of-range panic. -/
def innerBody (i j : Nat) (v : RVars) : Option RVars :=
  match v.track[j]? with
  | none => none
  | some row =>
    match row[i]? with
    | none => none
    | some b =>
      if b then
        match v.instrumentNames[j]? with
        | none => none
        | some nm => some { v with columnPlay := v.columnPlay ++ [nm] }
      else some v

/-- The inner row loop of `Render`: `fuel` counts the remaining rows. -/
def innerLoop (i : Nat) : Nat → Nat → RVars → Option RVars
  | _, 0, v => some v
  | j, fuel + 1, v => (innerBody i j v).bind (innerLoop i (j + 1) fuel)

/-- The tail of the outer column loop body: either flush `columnPlay` into
`play` (followed by the divisor) and reset it, or append the placeholder
and the divisor. -/
def afterColumn (v : RVars) : RVars :=
  if v.columnPlay.length > 0 then
    { v with play := v.play ++ joinComma v.columnPlay ++ "|", columnPlay := [] }
  else
    { v with play := v.play ++ "-" ++ "|" }

/-- The outer column loop of `Render`: `fuel` counts the remaining
columns. -/
def outerLoop : Nat → Nat → RVars → Option RVars
  | _, 0, v => some v
  | i, fuel + 1, v =>
    ((innerLoop i 0 v.track.length v).map afterColumn).bind (outerLoop (i + 1) fuel)

/-- `Render` over the explicit store: run the loops, add the leading
divisor when the play is non-empty, store the result in `d.render` and
return it.  `none` models the out-of-range panic on
`len(pattern.track[0])` or inside the loops. -/
def renderStore (v : RVars) : Option (RVars × String) :=
  match v.track[0]? with
  | none => none
  | some row0 =>
    (outerLoop 0 row0.length v).map (fun v1 =>
      let play := if v1.play.length > 0 then "|" ++ v1.play else v1.play
      ({ v1 with play := play, renderField := play }, play))

/-- `Play` over the explicit store: the body of `Play` contains no
assignment to any variable of the store (its locals `render` and `beats`
are fresh), so the store is returned unchanged next to the value computed
by `playGo` from `d.render`. -/
def playStore (v : RVars) (bpm : Int) : RVars × (Option PlayError × List String) :=
  (v, playGo v.renderField bpm)

/-- The three-line canonical pattern text from `main.go`. -/
def canonicalText : String :=
  "hi-hat |x-x-|x-x-|x-x-|x-x-|\nsnare  |----|x---|----|x---|\nkick   |x---|----|x---|----|"

/-- The boolean grid the canonical text parses to (also spelled out in a
comment in `main.go`). -/
def canonicalTrack : List (List Bool) :=
  [[true, false, true, false, true, false, true, false,
    true, false, true, false, true, false, true, false],
   [false, false, false, false, true, false, false, false,
    false, false, false, false, true, false, false, false],
   [true, false, false, false, false, false, false, false,
    true, false, false, false, false, false, false, false]]

/-- The rendered string documented for the canonical pattern. -/
def canonicalRender : String :=
  "|hi-hat,kick|-|hi-hat|-|hi-hat,snare|-|hi-hat|-|hi-hat,kick|-|hi-hat|-|hi-hat,snare|-|hi-hat|-|"

/-! ### Shared helper lemmas -/

theorem contains_iff (names : List String) (e : String) :
    contains names e = true ↔ e ∈ names := by
  induction names with
  | nil => simp [contains]
  | cons a rest ih =>
    simp only [contains]
    by_cases h : a = e
    · subst h; simp
    · rw [if_neg h, ih, List.mem_cons, or_iff_right (fun he => h he.symm)]

theorem getBooleanPlay_eq (c : Char) : getBooleanPlay ⟨[c]⟩ = (c != '-') := by
  by_cases h : c = '-'
  · subst h; decide
  · have hne : (⟨[c]⟩ : String) ≠ "-" :=
      fun he => h (by simpa using congrArg String.data he)
    simp [getBooleanPlay, hne, h]

theorem splitOnBar_ne_nil (l : List Char) : splitOnBar l ≠ [] := by
  induction l with
  | nil => simp [splitOnBar]
  | cons c rest ih =>
    simp only [splitOnBar]
    by_cases h : c = '|'
    · simp [h]
    · rw [if_neg h]
      match hm : splitOnBar rest with
      | [] => simp
      | g :: gs => simp

theorem trimSpace_eq_nil (l : List Char) (h : ∀ c ∈ l, isGoSpace c) :
    trimSpace l = [] := by
  unfold trimSpace
  rw [List.dropWhile_eq_nil_iff.mpr h]
  simp

theorem play_of_tokens (ts : List String) (a : String) :
    ts.foldl (fun acc t => acc ++ t ++ "|") a =
      a ++ strConcat (ts.map (fun t => t ++ "|")) := by
  induction ts generalizing a with
  | nil => simp [strConcat]
  | cons t ts ih =>
    rw [List.foldl_cons, ih]
    simp [strConcat, String.append_assoc]

theorem strConcat_cons_length_pos (t : String) (ts : List String) :
    0 < (strConcat ((t ++ "|") :: ts)).length := by
  simp only [strConcat, String.length_append]
  have : ("|" : String).length = 1 := rfl
  omega

/-! ### Claim theorems -/

/-- Claim C1: parsing the three-line canonical input succeeds, producing
the documented instrument names and boolean grid, and rendering the
resulting Pattern returns exactly the documented step string with a nil
error. -/
theorem c1_canonical_parse_render :
    parseGo canonicalText =
      (⟨["hi-hat", "snare", "kick"], canonicalTrack⟩, none) ∧
    renderGo ⟨["hi-hat", "snare", "kick"], canonicalTrack⟩ =
      some canonicalRender := by
  constructor
  · decide
  · decide

/-- Claim C3 counterexample: `Play` does not validate the tempo and does
not reject an empty render.  At `bpm = 0` and `bpm = -5` it returns a nil
error and still emits a step chunk, and with the empty stored render at
`bpm = 60` it returns a nil error and prints the chunk `||`. -/
theorem c3_play_counterexample :
    playGo "|x|" 0 = (none, ["|x|"]) ∧
    playGo "|x|" (-5) = (none, ["|x|"]) ∧
    playGo "" 60 = (none, ["||"]) := by
  decide

/-- Claim C3 (amended): `Play` never fails.  For every stored render and
every bpm (including 0 and -5, and including the empty render) it returns
a nil error and emits at least one output chunk. -/
theorem c3_play_never_fails (render : String) (bpm : Int) :
    (playGo render bpm).1 = none ∧ (playGo render bpm).2 ≠ [] := by
  constructor
  · rfl
  · unfold playGo
    rcases h : splitOnBar (trimBar render.data) with _ | ⟨b, bs⟩
    · exact absurd h (splitOnBar_ne_nil _)
    · simp [h]

/-- Claim C7 counterexample: rendering the Pattern produced by parsing the
empty text does not return the empty string: the code evaluates
`len(pattern.track[0])` on a track with zero rows, an out-of-range index
access (modelled by `none`). -/
theorem c7_empty_render_counterexample :
    ¬ renderGo ⟨[], []⟩ = some "" := by
  decide

/-- Claim C7 (amended): parsing the empty text succeeds and yields a
Pattern with zero instrument names and zero rows, but rendering that
Pattern panics with an out-of-range index access (`pattern.track[0]` on an
empty slice) instead of returning the empty string. -/
theorem c7_empty_parse_render :
    parseGo "" = (⟨[], []⟩, none) ∧ renderGo ⟨[], []⟩ = none := by
  constructor
  · decide
  · decide

/-- Claim C2 counterexample: `Render` has no ragged-track check.  On a
ragged track whose second row is shorter than row 0 it performs an
out-of-range read (`none`, a Go panic) instead of failing with a
`RaggedTrackError`, and on a ragged track whose second row is longer than
row 0 it succeeds with a rendered string and a nil error. -/
theorem c2_ragged_counterexample :
    renderGo ⟨["a", "b"], [[true, true], [true]]⟩ = none ∧
    renderGo ⟨["a", "b"], [[true], [true, true]]⟩ = some "|a,b|" := by
  decide

/-- Claim C4 counterexample: a Pattern with one instrument and rows of
equal length `S = 0` renders to the empty string, which contains zero
separator characters rather than the `S + 1 = 1` the claim requires. -/
theorem c4_zero_steps_counterexample :
    renderGo ⟨["kick"], [[]]⟩ = some "" ∧
    ¬ (("" : String).data.count '|' = 0 + 1) := by
  decide

/-- Claim C5 counterexample: the input `"a|x\na|x\nc"` contains the line
`c` with no separator, yet `Parse` fails with the duplicate-instrument
error (line 2 repeats the name `a` before line 3 is reached), not with the
malformed-line error. -/
theorem c5_malformed_counterexample :
    parseGo "a|x\na|x\nc" = (⟨[], []⟩, some .duplicatedInstrumentName) ∧
    (parseGo "a|x\na|x\nc").2 ≠ some .incorrectFormat := by
  decide

/-- Claim C6 counterexample: in `"a|x\nc\na|x"` the trimmed name `a`
occurs on two lines, yet `Parse` fails with the malformed-line error (line
2 has no separator and aborts the parse before the duplicate is seen), not
with the duplicate-instrument error. -/
theorem c6_duplicate_counterexample :
    parseGo "a|x\nc\na|x" = (⟨[], []⟩, some .incorrectFormat) ∧
    (parseGo "a|x\nc\na|x").2 ≠ some .duplicatedInstrumentName := by
  decide

theorem columnPlayGo_eq (track : List (List Bool)) :
    ∀ (names : List String) (i : Nat),
    (∀ r ∈ track, i < r.length) → track.length ≤ names.length →
    columnPlayGo track names i = some (activeCol names track i) := by
  induction track with
  | nil =>
    intro names i _ _
    cases names <;> simp [columnPlayGo, activeCol]
  | cons row rows ih =>
    intro names i hb hn
    match names with
    | [] => simp at hn
    | name :: ns =>
      have hrow : i < row.length := hb row (by simp)
      have hget : row[i]? = some row[i] := List.getElem?_eq_getElem hrow
      have ih2 := ih ns i (fun r hr => hb r (by simp [hr])) (by simpa using hn)
      simp only [columnPlayGo, hget, activeCol, List.zip_cons_cons,
        List.filterMap_cons, List.head?, List.tail]
      by_cases hbit : row[i] = true
      · simp [hbit, ih2, activeCol]
      · simp only [Bool.not_eq_true] at hbit
        simp [hbit, ih2, activeCol]

theorem renderColumns_eq (track : List (List Bool)) (names : List String)
    (hn : track.length ≤ names.length) (fuel : Nat) :
    ∀ i : Nat, (∀ r ∈ track, i + fuel ≤ r.length) →
    renderColumns track names i fuel =
      some ((List.range fuel).map
        (fun k => stepToken (activeCol names track (i + k)))) := by
  induction fuel with
  | zero => intro i _; simp [renderColumns]
  | succ n ih =>
    intro i h
    have hcol : columnPlayGo track names i = some (activeCol names track i) :=
      columnPlayGo_eq track names i
        (fun r hr => by have := h r hr; omega) hn
    simp only [renderColumns, hcol]
    rw [ih (i + 1) (fun r hr => by have := h r hr; omega)]
    simp only [Option.map_some', Option.some.injEq, List.range_succ_eq_map,
      List.map_cons, List.map_map, Nat.add_zero, List.cons.injEq, true_and]
    apply List.map_congr_left
    intro k _
    simp only [Function.comp]
    have : i + 1 + k = i + (k + 1) := by omega
    rw [this]

theorem activeCol_sublist (names : List String) :
    ∀ (track : List (List Bool)) (i : Nat),
    (activeCol names track i).Sublist names := by
  induction names with
  | nil => intro track i; simp [activeCol]
  | cons n ns ih =>
    intro track i
    match track with
    | [] => simp [activeCol]
    | row :: rows =>
      simp only [activeCol, List.zip_cons_cons, List.filterMap_cons]
      by_cases hb : (row[i]?).getD false = true
      · simp only [hb, if_pos]
        exact (ih rows i).cons₂ n
      · simp only [Bool.not_eq_true] at hb
        simp only [hb, Bool.false_eq_true, if_false]
        exact (ih rows i).cons n

/-- Claim C2 (amended): `Render` performs no ragged-track validation and
can read out of bounds (it panics with zero rows or when a later row is
shorter than row 0, and silently succeeds on ragged tracks whose extra
rows are longer).  When the track is non-empty, every row is at least as
long as row 0, and there are at least as many instrument names as rows,
`Render` performs no out-of-range access and returns a string with a nil
error. -/
theorem c2_render_in_bounds (p : Pattern)
    (h0 : p.track ≠ [])
    (hrows : ∀ r ∈ p.track, ((p.track.head?).getD []).length ≤ r.length)
    (hnames : p.track.length ≤ p.instrumentNames.length) :
    (renderGo p).isSome := by
  obtain ⟨names, track⟩ := p
  match track, h0 with
  | row0 :: rest, _ =>
    simp only [renderGo, List.head?] at hrows ⊢
    rw [renderColumns_eq (row0 :: rest) names hnames row0.length 0
      (fun r hr => by simpa using hrows r hr)]
    simp

/-- Witness for C2: a concrete well-shaped Pattern on which `Render`
completes without an out-of-range access. -/
theorem c2_render_in_bounds_witness :
    (renderGo ⟨["a", "b"], [[true, false], [true, true]]⟩).isSome :=
  c2_render_in_bounds ⟨["a", "b"], [[true, false], [true, true]]⟩
    (by decide) (by decide) (by decide)

/-- Claim C4 (amended): for every Pattern with `N ≥ 1` instruments (one
name per row), all rows of equal length `S` with `S ≥ 1`, `Render`
succeeds and returns the `S` step tokens each followed by the separator,
with one leading separator (`S + 1` separator occurrences whenever no
instrument name itself contains `|`); each step token is the comma-join of
the instruments active at that step — a sublist of `instrumentNames`, so
in first-appearance order — or the placeholder `-` when none are active.
For `S = 0` the rendered string is empty instead. -/
theorem c4_render_shape (p : Pattern) (S : Nat)
    (hlen : p.instrumentNames.length = p.track.length)
    (h0 : p.track ≠ []) (hS : 1 ≤ S)
    (hrows : ∀ r ∈ p.track, r.length = S) :
    renderGo p =
      some ("|" ++ strConcat (((List.range S).map
        (fun i => stepToken (activeCol p.instrumentNames p.track i))).map
          (fun t => t ++ "|"))) ∧
    ((List.range S).map
      (fun i => stepToken (activeCol p.instrumentNames p.track i))).length = S ∧
    ∀ i : Nat, (activeCol p.instrumentNames p.track i).Sublist p.instrumentNames := by
  refine ⟨?_, by simp, fun i => activeCol_sublist _ _ _⟩
  obtain ⟨names, track⟩ := p
  match track, h0 with
  | row0 :: rest, _ =>
    have hrow0 : row0.length = S := hrows row0 (by simp)
    simp only [renderGo, List.head?]
    rw [hrow0, renderColumns_eq (row0 :: rest) names (le_of_eq hlen.symm) S 0
      (fun r hr => by rw [hrows r hr]; omega)]
    simp only [Option.map_some', Option.some.injEq, Nat.zero_add]
    rw [play_of_tokens, String.empty_append]
    rcases hR : (List.range S).map
        (fun i => stepToken (activeCol names (row0 :: rest) i)) with _ | ⟨t, ts⟩
    · exfalso
      have : S = 0 := by simpa using congrArg List.length hR
      omega
    · rw [List.map_cons]
      rw [if_pos (strConcat_cons_length_pos t (ts.map (fun t => t ++ "|")))]

/-- Witness for C4: the rendered shape evaluated at a concrete two-track,
two-step Pattern. -/
theorem c4_render_shape_witness :
    renderGo ⟨["a", "b"], [[true, false], [true, true]]⟩ = some "|a,b|b|" := by
  have h := c4_render_shape ⟨["a", "b"], [[true, false], [true, true]]⟩ 2
    (by decide) (by decide) (by decide) (by decide)
  rw [h.1]
  decide

theorem parseLines_ok (lines : List (List Char)) :
    ∀ (names : List String) (track : List (List Bool)) (p : Pattern),
    parseLines lines names track = (p, none) →
    p.instrumentNames = names ++ lines.map lineName ∧
    p.track = track ++ lines.map lineRow ∧
    ∀ l ∈ lines, (cutBar l).isSome := by
  induction lines with
  | nil =>
    intro names track p h
    simp only [parseLines, Prod.mk.injEq] at h
    simp [← h.1]
  | cons line rest ih =>
    intro names track p h
    simp only [parseLines] at h
    rcases hc : cutBar line with _ | ⟨before, after⟩
    · rw [hc] at h; simp at h
    · rw [hc] at h
      simp only at h
      by_cases hdup : contains names (⟨trimSpace before⟩ : String) = true
      · rw [if_pos hdup] at h; simp at h
      · rw [if_neg hdup] at h
        obtain ⟨h1, h2, h3⟩ := ih _ _ _ h
        refine ⟨?_, ?_, ?_⟩
        · rw [h1, List.map_cons, List.append_assoc]
          simp [lineName, hc]
        · rw [h2, List.map_cons, List.append_assoc]
          simp [lineRow, hc]
        · intro l hl
          rcases List.mem_cons.mp hl with hl | hl
          · subst hl; rw [hc]; rfl
          · exact h3 l hl

/-- Claim C8: in a parsed row, a beat of the flattened sequence (the text
after the first `|` with all further `|` removed) is active exactly when
its symbol differs from `-`: the row stored for line `i` is the pointwise
image of the flattened sequence under `(· != '-')`, so any non-`-` symbol
counts as a hit. -/
theorem c8_permissive_beats (text : String) (p : Pattern)
    (h : parseGo text = (p, none)) (i : Nat) (line : List Char)
    (hline : (splitLines text.data)[i]? = some line)
    (before after : List Char)
    (hcut : cutBar line = some (before, after)) :
    p.track[i]? = some ((after.filter (fun c => c ≠ '|')).map
      (fun c => c != '-')) := by
  obtain ⟨_, h2, _⟩ := parseLines_ok (splitLines text.data) [] [] p h
  rw [h2, List.nil_append, List.getElem?_map, hline, Option.map_some']
  simp only [Option.some.injEq, lineRow, hcut]
  exact List.map_congr_left (fun c _ => getBooleanPlay_eq c)

/-- Witness for C8: the line `a |x-y|!z|` flattens to `x-y!z` and parses
to the row `[true, false, true, true, true]`. -/
theorem c8_permissive_beats_witness :
    (⟨["a"], [[true, false, true, true, true]]⟩ : Pattern).track[0]? =
      some (((("x-y|!z|" : String).data).filter (fun c => c ≠ '|')).map
        (fun c => c != '-')) :=
  c8_permissive_beats "a |x-y|!z|" ⟨["a"], [[true, false, true, true, true]]⟩
    (by decide) 0 (("a |x-y|!z|" : String).data) (by decide)
    (("a " : String).data) (("x-y|!z|" : String).data) (by decide)

theorem parseLines_malformed (bad : List Char) (hbad : cutBar bad = none)
    (rest : List (List Char)) :
    ∀ (pre : List (List Char)) (names : List String) (track : List (List Bool)),
    (∀ l ∈ pre, (cutBar l).isSome) → (pre.map lineName).Nodup →
    (∀ l ∈ pre, lineName l ∉ names) →
    parseLines (pre ++ bad :: rest) names track =
      (⟨[], []⟩, some .incorrectFormat) := by
  intro pre
  induction pre with
  | nil =>
    intro names track _ _ _
    simp [parseLines, hbad]
  | cons l pre ih =>
    intro names track hcut hnodup hfresh
    obtain ⟨⟨before, after⟩, hc⟩ :=
      Option.isSome_iff_exists.mp (hcut l (by simp))
    have hname : lineName l = ⟨trimSpace before⟩ := by simp [lineName, hc]
    have hni : ¬ contains names (⟨trimSpace before⟩ : String) = true := by
      rw [← hname, contains_iff]
      exact hfresh l (by simp)
    simp only [List.cons_append, parseLines]
    rw [hc]
    simp only [hni, if_false, Bool.false_eq_true]
    apply ih
    · exact fun l hl => hcut l (by simp [hl])
    · exact (List.nodup_cons.mp (by simpa using hnodup)).2
    · intro l1 hl1
      rw [List.mem_append]
      push_neg
      refine ⟨hfresh l1 (by simp [hl1]), ?_⟩
      intro hmem
      have hhead : lineName l ∉ pre.map lineName :=
        (List.nodup_cons.mp (by simpa using hnodup)).1
      have heq := List.mem_singleton.mp hmem
      apply hhead
      rw [hname, ← heq]
      exact List.mem_map_of_mem lineName hl1

/-- Claim C5 (amended): for every input text containing a line with no `|`
separator, provided every line before that line is well-formed (contains a
separator) and those earlier lines introduce pairwise-distinct instrument
names, `Parse` fails with the malformed-line error (`incorrect format`)
and returns the empty Pattern — the earlier lines contribute nothing. -/
theorem c5_malformed_line (text : String) (pre : List (List Char))
    (bad : List Char) (rest : List (List Char))
    (hsplit : splitLines text.data = pre ++ bad :: rest)
    (hbad : cutBar bad = none)
    (hpre : ∀ l ∈ pre, (cutBar l).isSome)
    (hnodup : (pre.map lineName).Nodup) :
    parseGo text = (⟨[], []⟩, some .incorrectFormat) := by
  unfold parseGo
  rw [hsplit]
  exact parseLines_malformed bad hbad rest pre [] [] hpre hnodup (by simp)

/-- Witness for C5: `"a|x\nnope"` has a well-formed first line and a
second line with no separator, and parsing fails with the malformed-line
error. -/
theorem c5_malformed_line_witness :
    parseGo "a|x\nnope" = (⟨[], []⟩, some .incorrectFormat) :=
  c5_malformed_line "a|x\nnope" [("a|x" : String).data] (("nope" : String).data)
    [] (by decide) (by decide) (by decide) (by decide)

theorem parseLines_duplicate (dup : List Char) (rest : List (List Char))
    (hdup : (cutBar dup).isSome) :
    ∀ (pre : List (List Char)) (names : List String) (track : List (List Bool)),
    (∀ l ∈ pre, (cutBar l).isSome) → (pre.map lineName).Nodup →
    (∀ l ∈ pre, lineName l ∉ names) →
    (lineName dup ∈ names ∨ lineName dup ∈ pre.map lineName) →
    parseLines (pre ++ dup :: rest) names track =
      (⟨[], []⟩, some .duplicatedInstrumentName) := by
  intro pre
  induction pre with
  | nil =>
    intro names track _ _ _ hmem
    obtain ⟨⟨before, after⟩, hc⟩ := Option.isSome_iff_exists.mp hdup
    have hname : lineName dup = ⟨trimSpace before⟩ := by simp [lineName, hc]
    have hin : lineName dup ∈ names := by
      rcases hmem with hmem | hmem
      · exact hmem
      · simp at hmem
    have hcon : contains names (⟨trimSpace before⟩ : String) = true :=
      (contains_iff names _).mpr (hname ▸ hin)
    simp [parseLines, hc, hcon]
  | cons l pre ih =>
    intro names track hcut hnodup hfresh hmem
    obtain ⟨⟨before, after⟩, hc⟩ :=
      Option.isSome_iff_exists.mp (hcut l (by simp))
    have hname : lineName l = ⟨trimSpace before⟩ := by simp [lineName, hc]
    have hni : ¬ contains names (⟨trimSpace before⟩ : String) = true := by
      rw [← hname, contains_iff]
      exact hfresh l (by simp)
    simp only [List.cons_append, parseLines]
    rw [hc]
    simp only [hni, if_false, Bool.false_eq_true]
    apply ih
    · exact fun l1 hl1 => hcut l1 (by simp [hl1])
    · exact (List.nodup_cons.mp (by simpa using hnodup)).2
    · intro l1 hl1
      rw [List.mem_append]
      push_neg
      refine ⟨hfresh l1 (by simp [hl1]), ?_⟩
      intro hmem1
      have hhead : lineName l ∉ pre.map lineName :=
        (List.nodup_cons.mp (by simpa using hnodup)).1
      have heq := List.mem_singleton.mp hmem1
      apply hhead
      rw [hname, ← heq]
      exact List.mem_map_of_mem lineName hl1
    · rcases hmem with hmem | hmem
      · exact Or.inl (List.mem_append_left _ hmem)
      · rw [List.map_cons, List.mem_cons] at hmem
        rcases hmem with hmem | hmem
        · exact Or.inl (List.mem_append_right _ (by simp [hmem, hname]))
        · exact Or.inr hmem

/-- Claim C6 (amended): for every input text in which the same trimmed
instrument name occurs on two lines, provided every line up to and
including the second occurrence contains a `|` separator and the lines
before the second occurrence carry pairwise-distinct names, `Parse` fails
with the duplicate-instrument error and returns the empty Pattern. -/
theorem c6_duplicate_instrument (text : String) (pre : List (List Char))
    (dup : List Char) (rest : List (List Char))
    (hsplit : splitLines text.data = pre ++ dup :: rest)
    (hpre : ∀ l ∈ pre, (cutBar l).isSome)
    (hdupcut : (cutBar dup).isSome)
    (hnodup : (pre.map lineName).Nodup)
    (hname : lineName dup ∈ pre.map lineName) :
    parseGo text = (⟨[], []⟩, some .duplicatedInstrumentName) := by
  unfold parseGo
  rw [hsplit]
  exact parseLines_duplicate dup rest hdupcut pre [] [] hpre hnodup
    (by simp) (Or.inr hname)

/-- Witness for C6: the spec's own test input `"kick|x---|\nkick|x---|"`
fails with the duplicate-instrument error. -/
theorem c6_duplicate_instrument_witness :
    parseGo "kick|x---|\nkick|x---|" =
      (⟨[], []⟩, some .duplicatedInstrumentName) :=
  c6_duplicate_instrument "kick|x---|\nkick|x---|"
    [("kick|x---|" : String).data] (("kick|x---|" : String).data) []
    (by decide) (by decide) (by decide) (by decide) (by decide)

/-- Claim C10: `Parse` accepts a line whose text before the first `|` is
empty or only whitespace, recording the empty string as the instrument
name; two such lines in one input collide under the exact post-trim
comparison and fail with the duplicate-instrument error. -/
theorem c10_blank_instrument_names (text : String) (l1 l2 : List Char)
    (rest : List (List Char)) (b1 a1 b2 a2 : List Char)
    (hsplit : splitLines text.data = l1 :: l2 :: rest)
    (hc1 : cutBar l1 = some (b1, a1)) (hs1 : ∀ c ∈ b1, isGoSpace c)
    (hc2 : cutBar l2 = some (b2, a2)) (hs2 : ∀ c ∈ b2, isGoSpace c) :
    lineName l1 = "" ∧
    (parseLines [l1] [] []).1.instrumentNames = [""] ∧
    parseGo text = (⟨[], []⟩, some .duplicatedInstrumentName) := by
  have ht1 : trimSpace b1 = [] := trimSpace_eq_nil b1 hs1
  have ht2 : trimSpace b2 = [] := trimSpace_eq_nil b2 hs2
  refine ⟨by simp [lineName, hc1, ht1], ?_, ?_⟩
  · simp only [parseLines]
    rw [hc1]
    simp [contains, ht1, parseLines]
  · unfold parseGo
    rw [hsplit]
    simp only [parseLines]
    rw [hc1]
    simp only [contains, ht1, if_false]
    rw [hc2]
    simp [contains, ht2]

/-- Witness for C10: the two lines `"  |x|"` and `"\t|y|"` both have
whitespace-only name parts; the first records the empty name and the pair
fails with the duplicate-instrument error. -/
theorem c10_blank_instrument_names_witness :
    lineName ("  |x|" : String).data = "" ∧
    (parseLines [("  |x|" : String).data] [] []).1.instrumentNames = [""] ∧
    parseGo "  |x|\n\t|y|" = (⟨[], []⟩, some .duplicatedInstrumentName) :=
  c10_blank_instrument_names "  |x|\n\t|y|" (("  |x|" : String).data)
    (("\t|y|" : String).data) [] (("  " : String).data) (("x|" : String).data)
    (("\t" : String).data) (("y|" : String).data)
    (by decide) (by decide) (by decide) (by decide) (by decide)

theorem innerBody_frame (i j : Nat) (v w : RVars)
    (h : innerBody i j v = some w) :
    w.instrumentNames = v.instrumentNames ∧ w.track = v.track := by
  unfold innerBody at h
  split at h
  · simp at h
  · split at h
    · simp at h
    · split at h
      · split at h
        · simp at h
        · simp only [Option.some.injEq] at h
          rw [← h]
          exact ⟨rfl, rfl⟩
      · simp only [Option.some.injEq] at h
        rw [← h]
        exact ⟨rfl, rfl⟩

theorem innerLoop_frame (i : Nat) (fuel : Nat) :
    ∀ (j : Nat) (v w : RVars), innerLoop i j fuel v = some w →
    w.instrumentNames = v.instrumentNames ∧ w.track = v.track := by
  induction fuel with
  | zero =>
    intro j v w h
    simp only [innerLoop, Option.some.injEq] at h
    rw [← h]
    exact ⟨rfl, rfl⟩
  | succ n ih =>
    intro j v w h
    simp only [innerLoop] at h
    rcases hb : innerBody i j v with _ | u
    · rw [hb] at h; simp at h
    · rw [hb, Option.some_bind] at h
      obtain ⟨h1, h2⟩ := innerBody_frame i j v u hb
      obtain ⟨h3, h4⟩ := ih (j + 1) u w h
      exact ⟨h3.trans h1, h4.trans h2⟩

theorem afterColumn_frame (v : RVars) :
    (afterColumn v).instrumentNames = v.instrumentNames ∧
    (afterColumn v).track = v.track := by
  unfold afterColumn
  split <;> exact ⟨rfl, rfl⟩

theorem outerLoop_frame (fuel : Nat) :
    ∀ (i : Nat) (v w : RVars), outerLoop i fuel v = some w →
    w.instrumentNames = v.instrumentNames ∧ w.track = v.track := by
  induction fuel with
  | zero =>
    intro i v w h
    simp only [outerLoop, Option.some.injEq] at h
    rw [← h]
    exact ⟨rfl, rfl⟩
  | succ n ih =>
    intro i v w h
    simp only [outerLoop] at h
    rcases hb : innerLoop i 0 v.track.length v with _ | u
    · rw [hb] at h; simp at h
    · rw [hb, Option.map_some', Option.some_bind] at h
      obtain ⟨h1, h2⟩ := innerLoop_frame i v.track.length 0 v u hb
      obtain ⟨h3, h4⟩ := afterColumn_frame u
      obtain ⟨h5, h6⟩ := ih (i + 1) (afterColumn u) w h
      exact ⟨h5.trans (h3.trans h1), h6.trans (h4.trans h2)⟩

/-- Claim C9: `Render` and `Play` never mutate the Pattern passed to
`Render`.  Over the explicit mutable store (the Pattern's two slices, the
locals of `Render`, and the field `d.render`), a completed `Render`
followed by any `Play` leaves the `instrumentNames` and `track` components
exactly as they were: only `columnPlay`, `play` and `d.render` are ever
assigned. -/
theorem c9_render_play_frame (p : Pattern) (r : String) (bpm : Int)
    (v1 : RVars) (out : String)
    (h : renderStore ⟨p.instrumentNames, p.track, [], "", r⟩ = some (v1, out)) :
    v1.instrumentNames = p.instrumentNames ∧ v1.track = p.track ∧
    (playStore v1 bpm).1.instrumentNames = p.instrumentNames ∧
    (playStore v1 bpm).1.track = p.track := by
  unfold renderStore at h
  split at h
  · simp at h
  · rename_i row0 h0
    rcases hout : outerLoop 0 row0.length ⟨p.instrumentNames, p.track, [], "", r⟩
        with _ | u
    · rw [hout] at h; simp at h
    · rw [hout, Option.map_some'] at h
      simp only [Option.some.injEq, Prod.mk.injEq] at h
      obtain ⟨h1, h2⟩ :=
        outerLoop_frame row0.length 0 ⟨p.instrumentNames, p.track, [], "", r⟩ u hout
      have hv1 : v1.instrumentNames = u.instrumentNames ∧ v1.track = u.track := by
        rw [← h.1]
        exact ⟨rfl, rfl⟩
      refine ⟨hv1.1.trans h1, hv1.2.trans h2, ?_, ?_⟩
      · exact hv1.1.trans h1
      · exact hv1.2.trans h2

/-- Witness for C9: running the store-level `Render` then `Play` on a
concrete one-track Pattern leaves its fields untouched. -/
theorem c9_render_play_frame_witness :
    (⟨["a"], [[true]], [], "|a|", "|a|"⟩ : RVars).instrumentNames = ["a"] ∧
    (⟨["a"], [[true]], [], "|a|", "|a|"⟩ : RVars).track = [[true]] ∧
    (playStore ⟨["a"], [[true]], [], "|a|", "|a|"⟩ 60).1.instrumentNames = ["a"] ∧
    (playStore ⟨["a"], [[true]], [], "|a|", "|a|"⟩ 60).1.track = [[true]] :=
  c9_render_play_frame ⟨["a"], [[true]]⟩ "" 60
    ⟨["a"], [[true]], [], "|a|", "|a|"⟩ "|a|" (by decide)

end DrumMachine
